import Mathlib

/-!
Shallow embedding of the CHIT8 CHIP-8 emulator core (cpu.rs, ram.rs,
disassembler.rs).  Machine integers are modelled as `Nat` with explicit
`% 2^w` exactly where the Rust code wraps; RAM, the register file and the
call stack are total functions `Nat → Nat` (the source arrays are only
ever indexed below their length by the dispatcher); fallible operations
(panics, the unbounded key-wait loop) return `Option`.
-/

/-- CPU state: RAM (4 KiB, addresses masked to 12 bits on access),
program counter, registers V0..VF, address register I, the 16-slot call
stack (slot value 0 means "empty"), and the two timers. -/
structure Chip8 where
  ram : Nat → Nat
  pc : Nat
  v : Nat → Nat
  i : Nat
  stack : Nat → Nat
  dt : Nat
  st : Nat

/-- Source `Memory::lb`: load a byte; only the low 12 bits of the address are used. -/
def Chip8.lb (s : Chip8) (addr : Nat) : Nat := s.ram (addr % 0x1000)

/-- Source `Memory::sb`: store a byte; only the low 12 bits of the address are used. -/
def Chip8.sb (s : Chip8) (addr val : Nat) : Chip8 :=
  { s with ram := Function.update s.ram (addr % 0x1000) val }

/-- The scan loop `while i < stack.len() { if stack[i] == 0 { ... } }`
shared by `call` and `ret`: first index `≥ start` holding 0, scanning at
most `fuel` slots. -/
def scanZero (st : Nat → Nat) : Nat → Nat → Option Nat
  | 0, _ => none
  | fuel + 1, idx => if st idx = 0 then some idx else scanZero st fuel (idx + 1)

/-- u8 `wrapping_sub` for values below 256. -/
def wrapSub (a b : Nat) : Nat := (a + 256 - b) % 256

namespace Cpu

/-- Source `Cpu::next_opcode`: big-endian fetch at `[pc, pc+1]`, pc advances by 2.
Returns the word and the advanced state. -/
def next_opcode (s : Chip8) : Nat × Chip8 :=
  (Nat.lor (s.lb (s.pc + 1)) (Nat.shiftLeft (s.lb s.pc) 8), { s with pc := s.pc + 2 })

/-- Source `Cpu::update_timers`: DT and ST each decrement by 1 when positive. -/
def update_timers (s : Chip8) : Chip8 :=
  { s with dt := if s.dt > 0 then s.dt - 1 else s.dt,
           st := if s.st > 0 then s.st - 1 else s.st }

/-- Source `Cpu::cls`: display unimplemented, no-op. -/
def cls (s : Chip8) : Chip8 := s

/-- Source `Cpu::ret`: panic if slot 0 is empty; otherwise pop the slot before the
first empty one, falling back to slot 15 when all slots are occupied. -/
def ret (s : Chip8) : Option Chip8 :=
  if s.stack 0 = 0 then none
  else
    match scanZero s.stack 16 0 with
    | some idx =>
        some { s with pc := s.stack (idx - 1),
                      stack := Function.update s.stack (idx - 1) 0 }
    | none =>
        some { s with pc := s.stack 15, stack := Function.update s.stack 15 0 }

/-- Source `Cpu::sys`: ignored. -/
def sys (s : Chip8) (addr : Nat) : Chip8 := s

/-- Source `Cpu::jp`. -/
def jp (s : Chip8) (addr : Nat) : Chip8 := { s with pc := addr }

/-- Source `Cpu::call`: write the pre-call PC into the first empty slot, panic
(`Call stack exceeded!`) when no slot is empty, then jump. -/
def call (s : Chip8) (addr : Nat) : Option Chip8 :=
  match scanZero s.stack 16 0 with
  | some idx => some { s with stack := Function.update s.stack idx s.pc, pc := addr }
  | none => none

/-- Source `Cpu::se`. -/
def se (s : Chip8) (reg val : Nat) : Chip8 :=
  if s.v reg = val then { s with pc := s.pc + 2 } else s

/-- Source `Cpu::sne`. -/
def sne (s : Chip8) (reg val : Nat) : Chip8 :=
  if s.v reg ≠ val then { s with pc := s.pc + 2 } else s

/-- Source `Cpu::se_reg`. -/
def se_reg (s : Chip8) (reg1 reg2 : Nat) : Chip8 :=
  if s.v reg1 = s.v reg2 then { s with pc := s.pc + 2 } else s

/-- Source `Cpu::ldx`. -/
def ldx (s : Chip8) (reg val : Nat) : Chip8 :=
  { s with v := Function.update s.v reg val }

/-- Source `Cpu::add_byte` (wrapping u8 addition). -/
def add_byte (s : Chip8) (reg byte : Nat) : Chip8 :=
  { s with v := Function.update s.v reg ((s.v reg + byte) % 256) }

/-- Source `Cpu::ld`. -/
def ld (s : Chip8) (reg1 reg2 : Nat) : Chip8 :=
  { s with v := Function.update s.v reg1 (s.v reg2) }

/-- Source `Cpu::or`. -/
def or (s : Chip8) (reg1 reg2 : Nat) : Chip8 :=
  { s with v := Function.update s.v reg1 (Nat.lor (s.v reg1) (s.v reg2)) }

/-- Source `Cpu::and`. -/
def and (s : Chip8) (reg1 reg2 : Nat) : Chip8 :=
  { s with v := Function.update s.v reg1 (Nat.land (s.v reg1) (s.v reg2)) }

/-- Source `Cpu::xor`. -/
def xor (s : Chip8) (reg1 reg2 : Nat) : Chip8 :=
  { s with v := Function.update s.v reg1 (Nat.xor (s.v reg1) (s.v reg2)) }

/-- Source `Cpu::add_reg`: carry flag to VF first, then the wrapped sum to Vreg1. -/
def add_reg (s : Chip8) (reg1 reg2 : Nat) : Chip8 :=
  let v1 := s.v reg1
  let v2 := s.v reg2
  let vf := Function.update s.v 0xF (if v1 + v2 > 0xFF then 1 else 0)
  { s with v := Function.update vf reg1 ((v1 + v2) % 256) }

/-- Source `Cpu::sub`: not-borrow flag to VF first, then the wrapping difference. -/
def sub (s : Chip8) (reg1 reg2 : Nat) : Chip8 :=
  let v1 := s.v reg1
  let v2 := s.v reg2
  let vf := Function.update s.v 0xF (if v1 > v2 then 1 else 0)
  { s with v := Function.update vf reg1 (wrapSub v1 v2) }

/-- Source `Cpu::shr`: pre-shift least-significant bit to VF, then shift right. -/
def shr (s : Chip8) (reg : Nat) : Chip8 :=
  let val := s.v reg
  let vf := Function.update s.v 0xF (if Nat.land 1 val = 1 then 1 else 0)
  { s with v := Function.update vf reg (val >>> 1) }

/-- Source `Cpu::subn`: not-borrow flag to VF first, then `Vreg2 - Vreg1` wrapping. -/
def subn (s : Chip8) (reg1 reg2 : Nat) : Chip8 :=
  let v1 := s.v reg1
  let v2 := s.v reg2
  let vf := Function.update s.v 0xF (if v2 > v1 then 1 else 0)
  { s with v := Function.update vf reg1 (wrapSub v2 v1) }

/-- Source `Cpu::shl`: pre-shift most-significant bit to VF, then shift left
(u8 truncation). -/
def shl (s : Chip8) (reg : Nat) : Chip8 :=
  let val := s.v reg
  let vf := Function.update s.v 0xF (if (Nat.land 0b10000000 val) >>> 7 = 1 then 1 else 0)
  { s with v := Function.update vf reg ((val <<< 1) % 256) }

/-- Source `Cpu::sne_reg`. -/
def sne_reg (s : Chip8) (reg1 reg2 : Nat) : Chip8 :=
  if s.v reg1 ≠ s.v reg2 then { s with pc := s.pc + 2 } else s

/-- Source `Cpu::ldi`. -/
def ldi (s : Chip8) (val : Nat) : Chip8 := { s with i := val }

/-- Source `Cpu::jp_v0`. -/
def jp_v0 (s : Chip8) (addr : Nat) : Chip8 := { s with pc := addr + s.v 0 }

/-- Source `Cpu::rnd`; the generated random byte is passed in as `rb`. -/
def rnd (rb : Nat) (s : Chip8) (reg byte : Nat) : Chip8 :=
  { s with v := Function.update s.v reg (Nat.land (rb % 256) byte) }

/-- Source `Cpu::drw`: unimplemented, no-op. -/
def drw (s : Chip8) (xreg yreg bytes : Nat) : Chip8 := s

/-- Source `Cpu::skp`; the input snapshot is passed in as `keys`. -/
def skp (keys : Nat → Bool) (s : Chip8) (reg : Nat) : Chip8 :=
  if keys (s.v reg) then { s with pc := s.pc + 2 } else s

/-- Source `Cpu::sknp`. -/
def sknp (keys : Nat → Bool) (s : Chip8) (reg : Nat) : Chip8 :=
  if keys (s.v reg) then s else { s with pc := s.pc + 2 }

/-- Source `Cpu::ld_dt_into_vx`. -/
def ld_dt_into_vx (s : Chip8) (reg : Nat) : Chip8 :=
  { s with v := Function.update s.v reg s.dt }

/-- Source `Cpu::ld_k_into_vx`: busy-wait for a key; with a constant snapshot the
loop either finds the lowest pressed index on the first poll or never
terminates (`none`). -/
def ld_k_into_vx (keys : Nat → Bool) (s : Chip8) (reg : Nat) : Option Chip8 :=
  match (List.range 16).find? keys with
  | some k => some { s with v := Function.update s.v reg k }
  | none => none

/-- Source `Cpu::ld_vx_into_dt`. -/
def ld_vx_into_dt (s : Chip8) (reg : Nat) : Chip8 := { s with dt := s.v reg }

/-- Source `Cpu::ld_vx_into_st`. -/
def ld_vx_into_st (s : Chip8) (reg : Nat) : Chip8 := { s with st := s.v reg }

/-- Source `Cpu::add_vx`. -/
def add_vx (s : Chip8) (reg : Nat) : Chip8 := { s with i := s.i + s.v reg }

/-- Source `Cpu::ld_vx_digit_into_f`: `(v[reg] * 5) as u16`, the multiplication
performed in u8 arithmetic (wrapping) before widening. -/
def ld_vx_digit_into_f (s : Chip8) (reg : Nat) : Chip8 :=
  { s with i := (s.v reg * 5) % 256 }

/-- Source `Cpu::ld_vx_into_bcd`: the source renders `v[reg]` as its decimal
string and writes the digits zero-padded to width 3; for values below
1000 (u8 is below 256) the three written bytes are exactly these
div/mod digits. -/
def ld_vx_into_bcd (s : Chip8) (reg : Nat) : Chip8 :=
  let val := s.v reg
  ((s.sb s.i (val / 100 % 10)).sb (s.i + 1) (val / 10 % 10)).sb (s.i + 2) (val % 10)

/-- Loop body of `Cpu::ld_v0_to_vx_into_i`: store `count` registers
starting at register `idx` to memory starting at `addr`. -/
def stRegs : Chip8 → Nat → Nat → Nat → Chip8
  | s, _, _, 0 => s
  | s, addr, idx, count + 1 => stRegs (s.sb addr (s.v idx)) (addr + 1) (idx + 1) count

/-- Source `Cpu::ld_v0_to_vx_into_i`. -/
def ld_v0_to_vx_into_i (s : Chip8) (reg : Nat) : Chip8 := stRegs s s.i 0 (reg + 1)

/-- Loop body of `Cpu::ld_i_into_v0_to_vx`: load `count` registers
starting at register `idx` from memory starting at `addr`. -/
def ldRegs : Chip8 → Nat → Nat → Nat → Chip8
  | s, _, _, 0 => s
  | s, addr, idx, count + 1 =>
      ldRegs { s with v := Function.update s.v idx (s.lb addr) } (addr + 1) (idx + 1) count

/-- Source `Cpu::ld_i_into_v0_to_vx`. -/
def ld_i_into_v0_to_vx (s : Chip8) (reg : Nat) : Chip8 := ldRegs s s.i 0 (reg + 1)

/-- Source `Cpu::unknown_opcode`: dumps state and panics. -/
def unknown_opcode (s : Chip8) (op : Nat) : Option Chip8 := none

/-- Source `Cpu::new` over `Ram::new` (empty RAM): pc = 0x200, everything else 0. -/
def new : Chip8 :=
  { ram := fun _ => 0, pc := 0x200, v := fun _ => 0, i := 0,
    stack := fun _ => 0, dt := 0, st := 0 }

end Cpu

/-- The `decode_opcode!` dispatch table applied to the CPU, arms in source
order; the random byte `rb` and key snapshot `keys` stand for the ambient
`ThreadRng` and `Input` collaborators.  Bit-mask field extraction is
written arithmetically: `op & 0x0FFF = op % 4096`,
`(op & 0x0F00) >> 8 = op / 256 % 16`, `(op & 0x00F0) >> 4 = op / 16 % 16`,
`op & 0x00FF = op % 256`, `op & 0x000F = op % 16`. -/
def execOp (rb : Nat) (keys : Nat → Bool) (op : Nat) (s : Chip8) : Option Chip8 :=
  if op = 0x00E0 then some (Cpu.cls s)
  else if op = 0x00EE then Cpu.ret s
  else if op ≤ 0x0FFF then some (Cpu.sys s (op % 4096))
  else if 0x1000 ≤ op ∧ op ≤ 0x1FFF then some (Cpu.jp s (op % 4096))
  else if 0x2000 ≤ op ∧ op ≤ 0x2FFF then Cpu.call s (op % 4096)
  else if 0x3000 ≤ op ∧ op ≤ 0x3FFF then some (Cpu.se s (op / 256 % 16) (op % 256))
  else if 0x4000 ≤ op ∧ op ≤ 0x4FFF then some (Cpu.sne s (op / 256 % 16) (op % 256))
  else if 0x5000 ≤ op ∧ op ≤ 0x5FFF then some (Cpu.se_reg s (op / 256 % 16) (op / 16 % 16))
  else if 0x6000 ≤ op ∧ op ≤ 0x6FFF then some (Cpu.ldx s (op / 256 % 16) (op % 256))
  else if 0x7000 ≤ op ∧ op ≤ 0x7FFF then some (Cpu.add_byte s (op / 256 % 16) (op % 256))
  else if 0x8000 ≤ op ∧ op ≤ 0x8FFF ∧ op % 16 = 0x0 then some (Cpu.ld s (op / 256 % 16) (op / 16 % 16))
  else if 0x8000 ≤ op ∧ op ≤ 0x8FFF ∧ op % 16 = 0x1 then some (Cpu.or s (op / 256 % 16) (op / 16 % 16))
  else if 0x8000 ≤ op ∧ op ≤ 0x8FFF ∧ op % 16 = 0x2 then some (Cpu.and s (op / 256 % 16) (op / 16 % 16))
  else if 0x8000 ≤ op ∧ op ≤ 0x8FFF ∧ op % 16 = 0x3 then some (Cpu.xor s (op / 256 % 16) (op / 16 % 16))
  else if 0x8000 ≤ op ∧ op ≤ 0x8FFF ∧ op % 16 = 0x4 then some (Cpu.add_reg s (op / 256 % 16) (op / 16 % 16))
  else if 0x8000 ≤ op ∧ op ≤ 0x8FFF ∧ op % 16 = 0x5 then some (Cpu.sub s (op / 256 % 16) (op / 16 % 16))
  else if 0x8000 ≤ op ∧ op ≤ 0x8FFF ∧ op % 16 = 0x6 then some (Cpu.shr s (op / 256 % 16))
  else if 0x8000 ≤ op ∧ op ≤ 0x8FFF ∧ op % 16 = 0x7 then some (Cpu.subn s (op / 256 % 16) (op / 16 % 16))
  else if 0x8000 ≤ op ∧ op ≤ 0x8FFF ∧ op % 16 = 0xE then some (Cpu.shl s (op / 256 % 16))
  else if 0x9000 ≤ op ∧ op ≤ 0x9FFF ∧ op % 16 = 0x0 then some (Cpu.sne_reg s (op / 256 % 16) (op / 16 % 16))
  else if 0xA000 ≤ op ∧ op ≤ 0xAFFF then some (Cpu.ldi s (op % 4096))
  else if 0xB000 ≤ op ∧ op ≤ 0xBFFF then some (Cpu.jp_v0 s (op % 4096))
  else if 0xC000 ≤ op ∧ op ≤ 0xCFFF then some (Cpu.rnd rb s (op / 256 % 16) (op % 256))
  else if 0xD000 ≤ op ∧ op ≤ 0xDFFF then some (Cpu.drw s (op / 256 % 16) (op / 16 % 16) (op % 16))
  else if 0xE000 ≤ op ∧ op ≤ 0xEFFF ∧ op % 256 = 0x9E then some (Cpu.skp keys s (op / 256 % 16))
  else if 0xE000 ≤ op ∧ op ≤ 0xEFFF ∧ op % 256 = 0xA1 then some (Cpu.sknp keys s (op / 256 % 16))
  else if 0xF000 ≤ op ∧ op ≤ 0xFFFF ∧ op % 256 = 0x07 then some (Cpu.ld_dt_into_vx s (op / 256 % 16))
  else if 0xF000 ≤ op ∧ op ≤ 0xFFFF ∧ op % 256 = 0x0A then Cpu.ld_k_into_vx keys s (op / 256 % 16)
  else if 0xF000 ≤ op ∧ op ≤ 0xFFFF ∧ op % 256 = 0x15 then some (Cpu.ld_vx_into_dt s (op / 256 % 16))
  else if 0xF000 ≤ op ∧ op ≤ 0xFFFF ∧ op % 256 = 0x18 then some (Cpu.ld_vx_into_st s (op / 256 % 16))
  else if 0xF000 ≤ op ∧ op ≤ 0xFFFF ∧ op % 256 = 0x1E then some (Cpu.add_vx s (op / 256 % 16))
  else if 0xF000 ≤ op ∧ op ≤ 0xFFFF ∧ op % 256 = 0x29 then some (Cpu.ld_vx_digit_into_f s (op / 256 % 16))
  else if 0xF000 ≤ op ∧ op ≤ 0xFFFF ∧ op % 256 = 0x33 then some (Cpu.ld_vx_into_bcd s (op / 256 % 16))
  else if 0xF000 ≤ op ∧ op ≤ 0xFFFF ∧ op % 256 = 0x55 then some (Cpu.ld_v0_to_vx_into_i s (op / 256 % 16))
  else if 0xF000 ≤ op ∧ op ≤ 0xFFFF ∧ op % 256 = 0x65 then some (Cpu.ld_i_into_v0_to_vx s (op / 256 % 16))
  else Cpu.unknown_opcode s op

/-- Source `Cpu::step`: fetch and advance, dispatch, then update timers. -/
def Cpu.step (rb : Nat) (keys : Nat → Bool) (s : Chip8) : Option Chip8 :=
  let p := Cpu.next_opcode s
  Option.map Cpu.update_timers (execOp rb keys p.1 p.2)

/-- Run a sequence of nested CALL instructions. -/
def doCalls : List Nat → Chip8 → Option Chip8
  | [], s => some s
  | a :: rest, s => (Cpu.call s a).bind (doCalls rest)

/-- The call stack holding exactly the pushed values `l` in slots
`0..l.length-1`, empty (zero) elsewhere. -/
def stackOf (l : List Nat) : Nat → Nat := fun j => l.getD j 0

/-- The pre-call PC at each level of a CALL sequence starting from PC `p`:
level 1 resumes at `p`, level `k+1` resumes at the `k`-th call's target. -/
def precalls (p : Nat) : List Nat → List Nat
  | [] => []
  | a :: rest => p :: precalls a rest

/-- Predicate: `unwinds s l` holds when successive RETURNs from `s` restore the PCs
in `l` in order and leave the stack empty at the end. -/
def unwinds : Chip8 → List Nat → Prop
  | s, [] => ∀ j, s.stack j = 0
  | s, p :: rest => ∃ s2, Cpu.ret s = some s2 ∧ s2.pc = p ∧ unwinds s2 rest

/-- Hex digit characters as the Rust `{:X}` (uppercase) formatter renders
a nibble. -/
def hexNibble : Nat → Char
  | 0 => '0' | 1 => '1' | 2 => '2' | 3 => '3'
  | 4 => '4' | 5 => '5' | 6 => '6' | 7 => '7'
  | 8 => '8' | 9 => '9' | 10 => 'A' | 11 => 'B'
  | 12 => 'C' | 13 => 'D' | 14 => 'E' | _ => 'F'

/-- Uppercase hex rendering without leading zeros (`{:X}`), fuelled so it
reduces definitionally; 8 nibbles cover every 16-bit operand. -/
def hexStrAux : Nat → Nat → String
  | 0, _ => ""
  | fuel + 1, n =>
      if n < 16 then String.singleton (hexNibble n)
      else hexStrAux fuel (n / 16) ++ String.singleton (hexNibble (n % 16))

/-- Rust `{:X}`. -/
def hexStr (n : Nat) : String := hexStrAux 8 n

/-- Rust `{:#X}`: `0x` prefix, uppercase, no padding. -/
def hexSharp (n : Nat) : String := "0x" ++ hexStr n

/-- Rust `0x{:0>4X}`: zero-padded to 4 hex digits (used by SYS and the
unknown-opcode message). -/
def hexPad4 (n : Nat) : String :=
  let s := hexStr n
  String.mk (List.replicate (4 - s.length) '0') ++ s

namespace Disassembler

/-- Source `Disassembler::cls`. -/
def cls : String := "CLS"

/-- Source `Disassembler::ret`. -/
def ret : String := "RET"

/-- Source `Disassembler::sys`: `format!("SYS 0x{:0>4X}", addr)`. -/
def sys (addr : Nat) : String := "SYS 0x" ++ hexPad4 addr

/-- Source `Disassembler::jp`: `format!("JP {:#X}", addr)`. -/
def jp (addr : Nat) : String := "JP " ++ hexSharp addr

/-- Source `Disassembler::call`: `format!("CALL {:#X}", addr)`. -/
def call (addr : Nat) : String := "CALL " ++ hexSharp addr

/-- Source `Disassembler::se`. -/
def se (reg val : Nat) : String := "SE V" ++ hexStr reg ++ ", " ++ hexStr val

/-- Source `Disassembler::sne`. -/
def sne (reg val : Nat) : String := "SNE V" ++ hexStr reg ++ ", " ++ hexStr val

/-- Source `Disassembler::se_reg`. -/
def se_reg (reg1 reg2 : Nat) : String := "SE V" ++ hexStr reg1 ++ ", V" ++ hexStr reg2

/-- Source `Disassembler::ldx`. -/
def ldx (reg val : Nat) : String := "LD V" ++ hexStr reg ++ ", " ++ hexSharp val

/-- Source `Disassembler::add_byte`. -/
def add_byte (reg byte : Nat) : String := "ADD V" ++ hexStr reg ++ ", " ++ hexStr byte

/-- Source `Disassembler::ld`. -/
def ld (reg1 reg2 : Nat) : String := "LD V" ++ hexStr reg1 ++ ", V" ++ hexStr reg2

/-- Source `Disassembler::or`. -/
def or (reg1 reg2 : Nat) : String := "OR V" ++ hexStr reg1 ++ ", V" ++ hexStr reg2

/-- Source `Disassembler::and`. -/
def and (reg1 reg2 : Nat) : String := "AND V" ++ hexStr reg1 ++ ", V" ++ hexStr reg2

/-- Source `Disassembler::xor`. -/
def xor (reg1 reg2 : Nat) : String := "XOR V" ++ hexStr reg1 ++ ", V" ++ hexStr reg2

/-- Source `Disassembler::add_reg`. -/
def add_reg (reg1 reg2 : Nat) : String := "ADD V" ++ hexStr reg1 ++ ", V" ++ hexStr reg2

/-- Source `Disassembler::sub`. -/
def sub (reg1 reg2 : Nat) : String := "SUB V" ++ hexStr reg1 ++ ", V" ++ hexStr reg2

/-- Source `Disassembler::shr`. -/
def shr (reg : Nat) : String := "SHR V" ++ hexStr reg

/-- Source `Disassembler::subn`. -/
def subn (reg1 reg2 : Nat) : String := "SUBN V" ++ hexStr reg1 ++ ", V" ++ hexStr reg2

/-- Source `Disassembler::shl`: the source's format string is `"SHR V{:X}"`,
although the handler is for the SHL (0x8XYE) family. -/
def shl (reg : Nat) : String := "SHR V" ++ hexStr reg

/-- Source `Disassembler::sne_reg`. -/
def sne_reg (reg1 reg2 : Nat) : String := "SNE V" ++ hexStr reg1 ++ ", V" ++ hexStr reg2

/-- Source `Disassembler::ldi`. -/
def ldi (val : Nat) : String := "LD I, " ++ hexSharp val

/-- Source `Disassembler::jp_v0`. -/
def jp_v0 (addr : Nat) : String := "JP V0, " ++ hexSharp addr

/-- Source `Disassembler::rnd`. -/
def rnd (reg byte : Nat) : String := "RND V" ++ hexStr reg ++ ", " ++ hexStr byte

/-- Source `Disassembler::drw`. -/
def drw (xreg yreg bytes : Nat) : String :=
  "DRW (V" ++ hexStr xreg ++ ", V" ++ hexStr yreg ++ ") for " ++ hexStr bytes ++ " bytes"

/-- Source `Disassembler::skp`. -/
def skp (reg : Nat) : String := "SKP V" ++ hexStr reg

/-- Source `Disassembler::sknp`. -/
def sknp (reg : Nat) : String := "SKNP V" ++ hexStr reg

/-- Source `Disassembler::ld_dt_into_vx`. -/
def ld_dt_into_vx (reg : Nat) : String := "LD V" ++ hexStr reg ++ ", DT"

/-- Source `Disassembler::ld_k_into_vx`. -/
def ld_k_into_vx (reg : Nat) : String := "LD V" ++ hexStr reg ++ ", K"

/-- Source `Disassembler::ld_vx_into_dt`. -/
def ld_vx_into_dt (reg : Nat) : String := "LD DT, V" ++ hexStr reg

/-- Source `Disassembler::ld_vx_into_st`. -/
def ld_vx_into_st (reg : Nat) : String := "LD ST, V" ++ hexStr reg

/-- Source `Disassembler::add_vx`. -/
def add_vx (reg : Nat) : String := "ADD I, V" ++ hexStr reg

/-- Source `Disassembler::ld_vx_digit_into_f`. -/
def ld_vx_digit_into_f (reg : Nat) : String := "LD F, V" ++ hexStr reg

/-- Source `Disassembler::ld_vx_into_bcd`. -/
def ld_vx_into_bcd (reg : Nat) : String := "LD B, V" ++ hexStr reg

/-- Source `Disassembler::ld_v0_to_vx_into_i`. -/
def ld_v0_to_vx_into_i (reg : Nat) : String := "LD [I], V" ++ hexStr reg

/-- Source `Disassembler::ld_i_into_v0_to_vx`. -/
def ld_i_into_v0_to_vx (reg : Nat) : String := "LD V" ++ hexStr reg ++ ", [I]"

/-- Source `Disassembler::unknown_opcode`. -/
def unknown_opcode (op : Nat) : String := "Unknown opcode: 0x" ++ hexPad4 op

end Disassembler

/-- The `decode_opcode!` dispatch table applied to the `Disassembler`,
arms in the same source order with the same field extraction as
`execOp`. -/
def disasmOp (op : Nat) : String :=
  if op = 0x00E0 then Disassembler.cls
  else if op = 0x00EE then Disassembler.ret
  else if op ≤ 0x0FFF then Disassembler.sys (op % 4096)
  else if 0x1000 ≤ op ∧ op ≤ 0x1FFF then Disassembler.jp (op % 4096)
  else if 0x2000 ≤ op ∧ op ≤ 0x2FFF then Disassembler.call (op % 4096)
  else if 0x3000 ≤ op ∧ op ≤ 0x3FFF then Disassembler.se (op / 256 % 16) (op % 256)
  else if 0x4000 ≤ op ∧ op ≤ 0x4FFF then Disassembler.sne (op / 256 % 16) (op % 256)
  else if 0x5000 ≤ op ∧ op ≤ 0x5FFF then Disassembler.se_reg (op / 256 % 16) (op / 16 % 16)
  else if 0x6000 ≤ op ∧ op ≤ 0x6FFF then Disassembler.ldx (op / 256 % 16) (op % 256)
  else if 0x7000 ≤ op ∧ op ≤ 0x7FFF then Disassembler.add_byte (op / 256 % 16) (op % 256)
  else if 0x8000 ≤ op ∧ op ≤ 0x8FFF ∧ op % 16 = 0x0 then Disassembler.ld (op / 256 % 16) (op / 16 % 16)
  else if 0x8000 ≤ op ∧ op ≤ 0x8FFF ∧ op % 16 = 0x1 then Disassembler.or (op / 256 % 16) (op / 16 % 16)
  else if 0x8000 ≤ op ∧ op ≤ 0x8FFF ∧ op % 16 = 0x2 then Disassembler.and (op / 256 % 16) (op / 16 % 16)
  else if 0x8000 ≤ op ∧ op ≤ 0x8FFF ∧ op % 16 = 0x3 then Disassembler.xor (op / 256 % 16) (op / 16 % 16)
  else if 0x8000 ≤ op ∧ op ≤ 0x8FFF ∧ op % 16 = 0x4 then Disassembler.add_reg (op / 256 % 16) (op / 16 % 16)
  else if 0x8000 ≤ op ∧ op ≤ 0x8FFF ∧ op % 16 = 0x5 then Disassembler.sub (op / 256 % 16) (op / 16 % 16)
  else if 0x8000 ≤ op ∧ op ≤ 0x8FFF ∧ op % 16 = 0x6 then Disassembler.shr (op / 256 % 16)
  else if 0x8000 ≤ op ∧ op ≤ 0x8FFF ∧ op % 16 = 0x7 then Disassembler.subn (op / 256 % 16) (op / 16 % 16)
  else if 0x8000 ≤ op ∧ op ≤ 0x8FFF ∧ op % 16 = 0xE then Disassembler.shl (op / 256 % 16)
  else if 0x9000 ≤ op ∧ op ≤ 0x9FFF ∧ op % 16 = 0x0 then Disassembler.sne_reg (op / 256 % 16) (op / 16 % 16)
  else if 0xA000 ≤ op ∧ op ≤ 0xAFFF then Disassembler.ldi (op % 4096)
  else if 0xB000 ≤ op ∧ op ≤ 0xBFFF then Disassembler.jp_v0 (op % 4096)
  else if 0xC000 ≤ op ∧ op ≤ 0xCFFF then Disassembler.rnd (op / 256 % 16) (op % 256)
  else if 0xD000 ≤ op ∧ op ≤ 0xDFFF then Disassembler.drw (op / 256 % 16) (op / 16 % 16) (op % 16)
  else if 0xE000 ≤ op ∧ op ≤ 0xEFFF ∧ op % 256 = 0x9E then Disassembler.skp (op / 256 % 16)
  else if 0xE000 ≤ op ∧ op ≤ 0xEFFF ∧ op % 256 = 0xA1 then Disassembler.sknp (op / 256 % 16)
  else if 0xF000 ≤ op ∧ op ≤ 0xFFFF ∧ op % 256 = 0x07 then Disassembler.ld_dt_into_vx (op / 256 % 16)
  else if 0xF000 ≤ op ∧ op ≤ 0xFFFF ∧ op % 256 = 0x0A then Disassembler.ld_k_into_vx (op / 256 % 16)
  else if 0xF000 ≤ op ∧ op ≤ 0xFFFF ∧ op % 256 = 0x15 then Disassembler.ld_vx_into_dt (op / 256 % 16)
  else if 0xF000 ≤ op ∧ op ≤ 0xFFFF ∧ op % 256 = 0x18 then Disassembler.ld_vx_into_st (op / 256 % 16)
  else if 0xF000 ≤ op ∧ op ≤ 0xFFFF ∧ op % 256 = 0x1E then Disassembler.add_vx (op / 256 % 16)
  else if 0xF000 ≤ op ∧ op ≤ 0xFFFF ∧ op % 256 = 0x29 then Disassembler.ld_vx_digit_into_f (op / 256 % 16)
  else if 0xF000 ≤ op ∧ op ≤ 0xFFFF ∧ op % 256 = 0x33 then Disassembler.ld_vx_into_bcd (op / 256 % 16)
  else if 0xF000 ≤ op ∧ op ≤ 0xFFFF ∧ op % 256 = 0x55 then Disassembler.ld_v0_to_vx_into_i (op / 256 % 16)
  else if 0xF000 ≤ op ∧ op ≤ 0xFFFF ∧ op % 256 = 0x65 then Disassembler.ld_i_into_v0_to_vx (op / 256 % 16)
  else Disassembler.unknown_opcode op

/-- Write one register: `v[r] = val`. -/
def setReg (s : Chip8) (r val : Nat) : Chip8 :=
  { s with v := Function.update s.v r val }

/-- An input snapshot with no key pressed. -/
def kOff : Nat → Bool := fun _ => false

/-- Concrete state: fresh CPU with VF = 255 and VB = 1. -/
def sOvf : Chip8 :=
  { Cpu.new with v := Function.update (Function.update Cpu.new.v 0xF 255) 0xB 1 }

/-- Concrete state: fresh CPU with VA = 200 and VB = 100. -/
def sAB : Chip8 :=
  { Cpu.new with v := Function.update (Function.update Cpu.new.v 0xA 200) 0xB 100 }

/-- Concrete state: fresh CPU with PC moved to 0x300. -/
def sPC3 : Chip8 := { Cpu.new with pc := 0x300 }

/-- Concrete state: fresh CPU with VA = 0x62. -/
def sVA62 : Chip8 := { Cpu.new with v := Function.update Cpu.new.v 0xA 0x62 }

/-- Concrete state: fresh CPU with V0 = 60. -/
def sV060 : Chip8 := { Cpu.new with v := Function.update Cpu.new.v 0 60 }

/-
Helper lemmas.
-/

/-- Masking with 1 extracts the low bit. -/
theorem land_one_eq (n : Nat) : Nat.land 1 n = n % 2 := by
  show 1 &&& n = n % 2
  rw [Nat.land_comm]
  exact Nat.and_one_is_mod n

set_option maxRecDepth 4000 in
/-- For bytes, masking bit 7 and shifting yields the top-bit value. -/
theorem land128_shift : ∀ n, n < 256 → Nat.land 0b10000000 n >>> 7 = n / 128 := by decide

/-- Left-shifting by 1 doubles. -/
theorem shiftLeft_one_eq (n : Nat) : n <<< 1 = n * 2 := by
  rw [Nat.shiftLeft_eq, pow_one]

/-- Big-endian byte assembly: `low | (hi << 8)` is `256 * hi + low` when the
low byte is in range. -/
theorem lor_shift_fetch (h l : Nat) (hl : l < 256) :
    Nat.lor l (Nat.shiftLeft h 8) = 256 * h + l := by
  show l ||| h <<< 8 = 256 * h + l
  rw [Nat.shiftLeft_eq, Nat.lor_comm, Nat.mul_comm h (2 ^ 8)]
  exact (Nat.mul_add_lt_is_or (show l < 2 ^ 8 from hl) h).symm

/-- Distinct offsets below the mask stay distinct after masking. -/
theorem mod4096_inj (addr j k : Nat) (hj : j < 4096) (hk : k < 4096) (hne : j ≠ k) :
    (addr + j) % 4096 ≠ (addr + k) % 4096 := by omega

/-- C1: the dispatch arm for the 0x5 family matches the whole range
0x5000..0x5FFF with no low-nibble guard, so the word 0x5AB1 (low nibble 1)
is executed as the skip-if-equal operation `se_reg` — on a fresh CPU with
VA = VB it skips, leaving PC = 0x202 — and disassembles to "SE VA, VB",
instead of reaching the unknown-opcode hard fault; by contrast the 0x9
family is guarded, so 0x9AB1 does fault (`none`). -/
theorem dispatch_0x5_low_nibble_unchecked :
    Option.map Chip8.pc (execOp 0 kOff 0x5AB1 Cpu.new) = some 0x202 ∧
    disasmOp 0x5AB1 = "SE VA, VB" ∧
    execOp 0 kOff 0x9AB1 Cpu.new = none := by
  refine ⟨by decide, by decide, rfl⟩

/-- C2: the disassembler renders representative instructions of the jump
and register-add families exactly as claimed (`0x1ABC` → "JP 0xABC",
`0x8AB4` → "ADD VA, VB"), but the 0x8XYE (SHL) family renders as
"SHR VA" — not an SHL mnemonic. -/
theorem disasm_family_mnemonics :
    disasmOp 0x1ABC = "JP 0xABC" ∧
    disasmOp 0x8AB4 = "ADD VA, VB" ∧
    disasmOp 0x8ABE = "SHR VA" ∧
    disasmOp 0x8ABE ≠ "SHL VA" := by
  refine ⟨by decide, by decide, by decide, by decide⟩

/-- C3 counterexample: with destination register x = 0xF the claim fails:
on a state with VF = 255, VB = 1 the 9-bit sum overflows, so the claim
demands VF = 1, but `add_reg 0xF 0xB` leaves VF = (255 + 1) % 256 = 0. -/
theorem add_reg_vf_dest_cex :
    sOvf.v 0xF + sOvf.v 0xB > 0xFF ∧ (Cpu.add_reg sOvf 0xF 0xB).v 0xF ≠ 1 := by
  refine ⟨by decide, by decide⟩

/-- C3 (amended): for any destination register index x other than 0xF (and
any y), ADD sets VF = 1 iff the sum exceeds 0xFF and stores the sum mod 256
in Vx; SUB sets VF = 1 iff Vx > Vy and stores the wrapping difference;
SUBN sets VF = 1 iff Vy > Vx and stores the wrapping difference Vy - Vx.
When x = 0xF the arithmetic result overwrites the flag. -/
theorem alu_add_sub_subn_flags (s : Chip8) (x y : Nat) (hx : x ≠ 0xF)
    (hvx : s.v x < 256) (hvy : s.v y < 256) :
    ((Cpu.add_reg s x y).v 0xF = if s.v x + s.v y > 0xFF then 1 else 0) ∧
    (Cpu.add_reg s x y).v x = (s.v x + s.v y) % 256 ∧
    ((Cpu.sub s x y).v 0xF = if s.v x > s.v y then 1 else 0) ∧
    (Cpu.sub s x y).v x = (s.v x + 256 - s.v y) % 256 ∧
    ((Cpu.subn s x y).v 0xF = if s.v y > s.v x then 1 else 0) ∧
    (Cpu.subn s x y).v x = (s.v y + 256 - s.v x) % 256 := by
  have hfx : (0xF : Nat) ≠ x := Ne.symm hx
  refine ⟨?_, ?_, ?_, ?_, ?_, ?_⟩ <;>
    simp [Cpu.add_reg, Cpu.sub, Cpu.subn, wrapSub, Function.update_noteq hfx,
      Function.update_same]

/-- C3 witness: the amended ALU flag theorem applied at a concrete state
with VA = 200, VB = 100 (overflowing sum). -/
theorem alu_add_sub_subn_flags_witness :
    (0xA : Nat) ≠ 0xF ∧
    ((Cpu.add_reg sAB 0xA 0xB).v 0xF = if sAB.v 0xA + sAB.v 0xB > 0xFF then 1 else 0) :=
  ⟨by decide, (alu_add_sub_subn_flags sAB 0xA 0xB (by decide) (by decide) (by decide)).1⟩

/-- C6: SHR writes the pre-shift least-significant bit of Vx into VF and
then stores the right-shifted value in Vx; SHL writes the pre-shift
most-significant bit into VF and then stores the left-shifted (8-bit
truncated) value in Vx — the state equations exhibit VF receiving the bit
of the value read before the register is mutated, and for x ≠ 0xF the
final VF is that bit while Vx holds the shifted value. -/
theorem shr_shl_pre_shift_bit (s : Chip8) (x : Nat) (h : s.v x < 256) :
    Cpu.shr s x = setReg (setReg s 0xF (s.v x % 2)) x (s.v x / 2) ∧
    Cpu.shl s x = setReg (setReg s 0xF (s.v x / 128)) x (s.v x * 2 % 256) ∧
    (x ≠ 0xF → (Cpu.shr s x).v 0xF = s.v x % 2 ∧ (Cpu.shl s x).v 0xF = s.v x / 128) ∧
    (Cpu.shr s x).v x = s.v x / 2 ∧
    (Cpu.shl s x).v x = s.v x * 2 % 256 := by
  have h1 : (if Nat.land 1 (s.v x) = 1 then 1 else 0) = s.v x % 2 := by
    rw [land_one_eq]
    rcases Nat.mod_two_eq_zero_or_one (s.v x) with hq | hq <;> simp [hq]
  have h2 : s.v x >>> 1 = s.v x / 2 := Nat.shiftRight_one _
  have h3 : (if Nat.land 0b10000000 (s.v x) >>> 7 = 1 then 1 else 0) = s.v x / 128 := by
    rw [land128_shift _ h]
    have : s.v x / 128 = 0 ∨ s.v x / 128 = 1 := by omega
    rcases this with hq | hq <;> simp [hq]
  have h4 : s.v x <<< 1 % 256 = s.v x * 2 % 256 := by rw [shiftLeft_one_eq]
  have hshr : Cpu.shr s x = setReg (setReg s 0xF (s.v x % 2)) x (s.v x / 2) := by
    simp only [Cpu.shr, setReg, h1, h2]
  have hshl : Cpu.shl s x = setReg (setReg s 0xF (s.v x / 128)) x (s.v x * 2 % 256) := by
    simp only [Cpu.shl, setReg, h3, h4]
  refine ⟨hshr, hshl, fun hne => ⟨?_, ?_⟩, ?_, ?_⟩
  · rw [hshr]; simp [setReg, Function.update_noteq (Ne.symm hne), Function.update_same]
  · rw [hshl]; simp [setReg, Function.update_noteq (Ne.symm hne), Function.update_same]
  · rw [hshr]; simp [setReg, Function.update_same]
  · rw [hshl]; simp [setReg, Function.update_same]

/-- C6 witness: the shift theorem applied at a concrete state with
VA = 0x62. -/
theorem shr_shl_pre_shift_bit_witness :
    sVA62.v 0xA < 256 ∧ Cpu.shr sVA62 0xA = setReg (setReg sVA62 0xF (sVA62.v 0xA % 2)) 0xA (sVA62.v 0xA / 2) :=
  ⟨by decide, (shr_shl_pre_shift_bit sVA62 0xA (by decide)).1⟩

/-- C8: the BCD store writes Vx's hundreds digit at (masked) address I,
its tens digit at I+1 and its ones digit at I+2 — zero digits appearing as
left padding for small values — and leaves I itself unchanged. -/
theorem bcd_store_digits (s : Chip8) (x : Nat) :
    (Cpu.ld_vx_into_bcd s x).ram (s.i % 4096) = s.v x / 100 % 10 ∧
    (Cpu.ld_vx_into_bcd s x).ram ((s.i + 1) % 4096) = s.v x / 10 % 10 ∧
    (Cpu.ld_vx_into_bcd s x).ram ((s.i + 2) % 4096) = s.v x % 10 ∧
    (Cpu.ld_vx_into_bcd s x).i = s.i := by
  have h01 : (s.i + 1) % 4096 ≠ s.i % 4096 := by omega
  have h02 : (s.i + 2) % 4096 ≠ s.i % 4096 := by omega
  have h12 : (s.i + 2) % 4096 ≠ (s.i + 1) % 4096 := by omega
  refine ⟨?_, ?_, ?_, rfl⟩ <;>
    simp [Cpu.ld_vx_into_bcd, Chip8.sb, Function.update_noteq, Function.update_same,
      Function.update_noteq (Ne.symm h01), Function.update_noteq (Ne.symm h02),
      Function.update_noteq (Ne.symm h12), h01, h02, h12]

/-- C9: when the destination register is VF itself, each flag-setting ALU
operation writes the flag into VF first and then overwrites it with the
wrapped arithmetic result computed from the pre-instruction operand
values, so the flag value is lost. -/
theorem vf_dest_result_overwrites_flag (s : Chip8) (y : Nat) :
    (Cpu.add_reg s 0xF y).v 0xF = (s.v 0xF + s.v y) % 256 ∧
    (Cpu.sub s 0xF y).v 0xF = (s.v 0xF + 256 - s.v y) % 256 ∧
    (Cpu.subn s 0xF y).v 0xF = (s.v y + 256 - s.v 0xF) % 256 ∧
    (Cpu.shr s 0xF).v 0xF = s.v 0xF / 2 ∧
    (Cpu.shl s 0xF).v 0xF = s.v 0xF * 2 % 256 := by
  refine ⟨?_, ?_, ?_, ?_, ?_⟩ <;>
    simp [Cpu.add_reg, Cpu.sub, Cpu.subn, Cpu.shr, Cpu.shl, wrapSub,
      Function.update_same, Nat.shiftRight_one, shiftLeft_one_eq]

/-- C10: the font-sprite instruction computes I as (Vx * 5) mod 256 — the
multiplication is 8-bit — which is exact whenever 5 * Vx fits in a byte
(in particular for every digit value 0..F, giving the 5-byte glyph base
5 * Vx), and differs from 5 * Vx for every Vx ≥ 52. -/
theorem font_sprite_addr (s : Chip8) (x : Nat) :
    (Cpu.ld_vx_digit_into_f s x).i = s.v x * 5 % 256 ∧
    (s.v x * 5 ≤ 255 → (Cpu.ld_vx_digit_into_f s x).i = 5 * s.v x) ∧
    (s.v x ≤ 0xF → (Cpu.ld_vx_digit_into_f s x).i = 5 * s.v x) ∧
    (52 ≤ s.v x → (Cpu.ld_vx_digit_into_f s x).i ≠ 5 * s.v x) := by
  refine ⟨rfl, ?_, ?_, ?_⟩ <;> simp only [Cpu.ld_vx_digit_into_f] <;> omega

/-- C10 witness: the font-address theorem applied at a concrete state with
V0 = 60, where the stored I is 300 % 256 = 44 ≠ 300. -/
theorem font_sprite_addr_witness :
    52 ≤ sV060.v 0 ∧ (Cpu.ld_vx_digit_into_f sV060 0).i ≠ 5 * sV060.v 0 :=
  ⟨by decide, (font_sprite_addr sV060 0).2.2.2 (by decide)⟩

/-- C5: `step` equals fetching the big-endian word — high byte at the
masked PC, low byte at PC+1 — dispatching it on the state whose PC was
already advanced by 2, and applying the timer update to the instruction's
result; and the timer update decrements DT (resp. ST) by exactly 1 when
positive and leaves it at 0 otherwise, never increasing either timer. -/
theorem step_fetch_dispatch_timers (rb : Nat) (keys : Nat → Bool) (s : Chip8)
    (hram : ∀ a, s.ram a < 256) :
    Cpu.step rb keys s =
      Option.map Cpu.update_timers
        (execOp rb keys (256 * s.ram (s.pc % 4096) + s.ram ((s.pc + 1) % 4096))
          { s with pc := s.pc + 2 }) ∧
    (Cpu.next_opcode s).1 = 256 * s.ram (s.pc % 4096) + s.ram ((s.pc + 1) % 4096) ∧
    (Cpu.next_opcode s).2 = { s with pc := s.pc + 2 } ∧
    (∀ t : Chip8, (Cpu.update_timers t).dt = if 0 < t.dt then t.dt - 1 else t.dt) ∧
    (∀ t : Chip8, (Cpu.update_timers t).st = if 0 < t.st then t.st - 1 else t.st) ∧
    (∀ t : Chip8, (Cpu.update_timers t).dt ≤ t.dt ∧ (Cpu.update_timers t).st ≤ t.st) := by
  have hfetch : (Cpu.next_opcode s).1 = 256 * s.ram (s.pc % 4096) + s.ram ((s.pc + 1) % 4096) := by
    simp only [Cpu.next_opcode, Chip8.lb]
    exact lor_shift_fetch _ _ (hram _)
  refine ⟨?_, hfetch, rfl, fun t => rfl, fun t => rfl, fun t => ?_⟩
  · show Option.map Cpu.update_timers (execOp rb keys (Cpu.next_opcode s).1 (Cpu.next_opcode s).2) = _
    rw [hfetch]
    rfl
  · simp only [Cpu.update_timers]
    constructor <;> split <;> omega

/-- C5 witness: the step theorem applied to a fresh CPU (all RAM bytes are
zero, hence below 256). -/
theorem step_fetch_dispatch_timers_witness :
    (∀ a, Cpu.new.ram a < 256) ∧
    (Cpu.next_opcode Cpu.new).1 =
      256 * Cpu.new.ram (Cpu.new.pc % 4096) + Cpu.new.ram ((Cpu.new.pc + 1) % 4096) :=
  ⟨fun a => Nat.zero_lt_succ 255,
    (step_fetch_dispatch_timers 0 kOff Cpu.new (fun a => Nat.zero_lt_succ 255)).2.1⟩

/-- The register-store loop never touches the register file. -/
theorem stRegs_v : ∀ (n : Nat) (s : Chip8) (addr idx : Nat),
    (Cpu.stRegs s addr idx n).v = s.v := by
  intro n
  induction n with
  | zero => intro s addr idx; rfl
  | succ m ih => intro s addr idx; rw [Cpu.stRegs, ih]; rfl

/-- The register-store loop never touches I. -/
theorem stRegs_i : ∀ (n : Nat) (s : Chip8) (addr idx : Nat),
    (Cpu.stRegs s addr idx n).i = s.i := by
  intro n
  induction n with
  | zero => intro s addr idx; rfl
  | succ m ih => intro s addr idx; rw [Cpu.stRegs, ih]; rfl

/-- Memory cells outside the written window are untouched by the store
loop. -/
theorem stRegs_ram_skip : ∀ (n : Nat) (s : Chip8) (addr idx a : Nat),
    (∀ k, k < n → a ≠ (addr + k) % 4096) →
    (Cpu.stRegs s addr idx n).ram a = s.ram a := by
  intro n
  induction n with
  | zero => intro s addr idx a _; rfl
  | succ m ih =>
      intro s addr idx a hout
      rw [Cpu.stRegs, ih]
      · have h0 : a ≠ addr % 4096 := by
          have := hout 0 (Nat.succ_pos m)
          simpa using this
        simp [Chip8.sb, Function.update_noteq h0]
      · intro k hk
        have := hout (k + 1) (by omega)
        have harith : addr + (k + 1) = addr + 1 + k := by omega
        rw [harith] at this
        exact this

/-- The store loop writes register `idx + k` into cell `(addr + k) % 4096`. -/
theorem stRegs_ram_get : ∀ (n : Nat) (s : Chip8) (addr idx k : Nat),
    k < n → n ≤ 4096 →
    (Cpu.stRegs s addr idx n).ram ((addr + k) % 4096) = s.v (idx + k) := by
  intro n
  induction n with
  | zero => intro s addr idx k hk; omega
  | succ m ih =>
      intro s addr idx k hk hn
      match k with
      | 0 =>
          rw [Cpu.stRegs, stRegs_ram_skip]
          · simp [Chip8.sb, Function.update_same]
          · intro j hj
            have harith : addr + 1 + j = addr + (1 + j) := by omega
            rw [harith]
            exact mod4096_inj addr 0 (1 + j) (by omega) (by omega) (by omega)
      | k' + 1 =>
          rw [Cpu.stRegs]
          have harith : addr + (k' + 1) = addr + 1 + k' := by omega
          rw [harith, ih _ _ _ _ (by omega) (by omega)]
          simp [Chip8.sb]
          congr 1
          omega

/-- The register-load loop never touches RAM. -/
theorem ldRegs_ram : ∀ (n : Nat) (s : Chip8) (addr idx : Nat),
    (Cpu.ldRegs s addr idx n).ram = s.ram := by
  intro n
  induction n with
  | zero => intro s addr idx; rfl
  | succ m ih => intro s addr idx; rw [Cpu.ldRegs, ih]

/-- The register-load loop never touches I. -/
theorem ldRegs_i : ∀ (n : Nat) (s : Chip8) (addr idx : Nat),
    (Cpu.ldRegs s addr idx n).i = s.i := by
  intro n
  induction n with
  | zero => intro s addr idx; rfl
  | succ m ih => intro s addr idx; rw [Cpu.ldRegs, ih]

/-- Registers outside the loaded window are untouched by the load loop. -/
theorem ldRegs_v_skip : ∀ (n : Nat) (s : Chip8) (addr idx j : Nat),
    (j < idx ∨ idx + n ≤ j) →
    (Cpu.ldRegs s addr idx n).v j = s.v j := by
  intro n
  induction n with
  | zero => intro s addr idx j _; rfl
  | succ m ih =>
      intro s addr idx j hout
      rw [Cpu.ldRegs, ih _ _ _ _ (by omega)]
      have : j ≠ idx := by omega
      simp [Function.update_noteq this]

/-- The load loop fills register `idx + k` from cell `(addr + k) % 4096`. -/
theorem ldRegs_v_get : ∀ (n : Nat) (s : Chip8) (addr idx k : Nat),
    k < n →
    (Cpu.ldRegs s addr idx n).v (idx + k) = s.ram ((addr + k) % 4096) := by
  intro n
  induction n with
  | zero => intro s addr idx k hk; omega
  | succ m ih =>
      intro s addr idx k hk
      match k with
      | 0 =>
          rw [Cpu.ldRegs, ldRegs_v_skip _ _ _ _ _ (by omega)]
          simp [Chip8.lb, Function.update_same]
      | k' + 1 =>
          rw [Cpu.ldRegs]
          have harith : idx + (k' + 1) = idx + 1 + k' := by omega
          have harith2 : addr + (k' + 1) = addr + 1 + k' := by omega
          rw [harith, harith2, ih _ _ _ _ (by omega)]

/-- C7: storing V0..Vx to memory at I and loading V0..Vx back from I
reproduces the original register values exactly; the load leaves every
register beyond Vx unmodified; neither operation modifies I (and the
store does not modify the register file at all). -/
theorem block_transfer_round_trip (s : Chip8) (x : Nat) (hx : x < 16) :
    (∀ k, k ≤ x →
      (Cpu.ld_i_into_v0_to_vx (Cpu.ld_v0_to_vx_into_i s x) x).v k = s.v k) ∧
    (∀ j, x < j →
      (Cpu.ld_i_into_v0_to_vx (Cpu.ld_v0_to_vx_into_i s x) x).v j =
        (Cpu.ld_v0_to_vx_into_i s x).v j) ∧
    (Cpu.ld_v0_to_vx_into_i s x).i = s.i ∧
    (Cpu.ld_i_into_v0_to_vx (Cpu.ld_v0_to_vx_into_i s x) x).i = s.i ∧
    (Cpu.ld_v0_to_vx_into_i s x).v = s.v := by
  have hsv : (Cpu.ld_v0_to_vx_into_i s x).v = s.v := stRegs_v _ _ _ _
  have hsi : (Cpu.ld_v0_to_vx_into_i s x).i = s.i := stRegs_i _ _ _ _
  refine ⟨?_, ?_, hsi, ?_, hsv⟩
  · intro k hk
    have h1 : (Cpu.ld_i_into_v0_to_vx (Cpu.ld_v0_to_vx_into_i s x) x).v (0 + k) =
        (Cpu.ld_v0_to_vx_into_i s x).ram (((Cpu.ld_v0_to_vx_into_i s x).i + k) % 4096) :=
      ldRegs_v_get (x + 1) _ _ 0 k (by omega)
    rw [Nat.zero_add] at h1
    rw [h1, hsi]
    have h2 : (Cpu.ld_v0_to_vx_into_i s x).ram ((s.i + k) % 4096) = s.v (0 + k) :=
      stRegs_ram_get (x + 1) s s.i 0 k (by omega) (by omega)
    rw [h2, Nat.zero_add]
  · intro j hj
    exact ldRegs_v_skip (x + 1) _ _ 0 j (by omega)
  · rw [show (Cpu.ld_i_into_v0_to_vx (Cpu.ld_v0_to_vx_into_i s x) x).i =
        (Cpu.ld_v0_to_vx_into_i s x).i from ldRegs_i _ _ _ _, hsi]

/-- C7 witness: the round trip applied to a fresh CPU with x = 0xF. -/
theorem block_transfer_round_trip_witness :
    (0xF : Nat) < 16 ∧
    (∀ k, k ≤ 0xF →
      (Cpu.ld_i_into_v0_to_vx (Cpu.ld_v0_to_vx_into_i Cpu.new 0xF) 0xF).v k = Cpu.new.v k) :=
  ⟨by decide, (block_transfer_round_trip Cpu.new 0xF (by decide)).1⟩

/-- The scan finds the first empty slot right after the pushed prefix. -/
theorem scanZero_finds : ∀ (l : List Nat) (st : Nat → Nat) (fuel idx : Nat),
    (∀ k, st (idx + k) = stackOf l k) → (∀ b ∈ l, b ≠ 0) → l.length < fuel →
    scanZero st fuel idx = some (idx + l.length) := by
  intro l
  induction l with
  | nil =>
      intro st fuel idx hmap _ hfuel
      match fuel with
      | f + 1 =>
          have h0 : st idx = 0 := by
            have := hmap 0
            simpa [stackOf] using this
          simp [scanZero, h0]
  | cons b l' ih =>
      intro st fuel idx hmap hnz hfuel
      match fuel with
      | f + 1 =>
          have h0 : st idx = b := by
            have := hmap 0
            simpa [stackOf] using this
          have hb : b ≠ 0 := hnz b (List.mem_cons_self b l')
          rw [scanZero, if_neg (by rw [h0]; exact hb)]
          have hres := ih st f (idx + 1)
            (by
              intro k
              have := hmap (k + 1)
              have harith : idx + (k + 1) = idx + 1 + k := by omega
              rw [harith] at this
              simpa [stackOf] using this)
            (fun a ha => hnz a (List.mem_cons_of_mem b ha))
            (by simpa using Nat.lt_of_succ_lt_succ hfuel)
          rw [hres]
          congr 1
          simp
          omega

/-- A scan over all-occupied slots finds nothing. -/
theorem scanZero_full : ∀ (fuel idx : Nat) (st : Nat → Nat),
    (∀ k, k < fuel → st (idx + k) ≠ 0) → scanZero st fuel idx = none := by
  intro fuel
  induction fuel with
  | zero => intro idx st _; rfl
  | succ f ih =>
      intro idx st hnz
      have h0 : st idx ≠ 0 := by
        have := hnz 0 (Nat.succ_pos f)
        simpa using this
      rw [scanZero, if_neg h0]
      apply ih
      intro k hk
      have := hnz (k + 1) (by omega)
      have harith : idx + (k + 1) = idx + 1 + k := by omega
      rw [harith] at this
      exact this

/-- Reading the pushed stack just past its prefix yields the appended
value. -/
theorem stackOf_getD_len (l : List Nat) (p : Nat) :
    stackOf (l ++ [p]) l.length = p := by
  simp [stackOf, List.getD_append_right, Nat.le_refl]

/-- Pushing onto the prefix stack appends to the list. -/
theorem stackOf_push (l : List Nat) (p : Nat) :
    Function.update (stackOf l) l.length p = stackOf (l ++ [p]) := by
  funext j
  rcases lt_trichotomy j l.length with h | h | h
  · rw [Function.update_noteq (Nat.ne_of_lt h)]
    simp only [stackOf, List.getD, List.get?_eq_getElem?]
    rw [List.getElem?_append_left h]
  · subst h
    rw [Function.update_same, stackOf_getD_len]
  · rw [Function.update_noteq (Nat.ne_of_gt h)]
    have h1 : l.length ≤ j := by omega
    have h2 : (l ++ [p]).length ≤ j := by simp; omega
    simp only [stackOf, List.getD, List.get?_eq_getElem?]
    rw [List.getElem?_eq_none h1, List.getElem?_eq_none h2]

/-- Clearing the slot just past the prefix pops the appended value. -/
theorem stackOf_pop (l : List Nat) (p : Nat) :
    Function.update (stackOf (l ++ [p])) l.length 0 = stackOf l := by
  funext j
  rcases lt_trichotomy j l.length with h | h | h
  · rw [Function.update_noteq (Nat.ne_of_lt h)]
    simp only [stackOf, List.getD, List.get?_eq_getElem?]
    rw [List.getElem?_append_left h]
  · subst h
    rw [Function.update_same]
    simp only [stackOf, List.getD, List.get?_eq_getElem?]
    rw [List.getElem?_eq_none (Nat.le_refl _)]
    rfl
  · rw [Function.update_noteq (Nat.ne_of_gt h)]
    have h1 : l.length ≤ j := by omega
    have h2 : (l ++ [p]).length ≤ j := by simp; omega
    simp only [stackOf, List.getD, List.get?_eq_getElem?]
    rw [List.getElem?_eq_none h1, List.getElem?_eq_none h2]

/-- Calling `call` on a non-full prefix stack pushes the pre-call PC into the
first empty slot and jumps. -/
theorem call_spec (s : Chip8) (l : List Nat) (a : Nat)
    (hs : s.stack = stackOf l) (hnz : ∀ b ∈ l, b ≠ 0) (hlen : l.length < 16) :
    Cpu.call s a = some { s with stack := stackOf (l ++ [s.pc]), pc := a } := by
  rw [Cpu.call, hs,
    scanZero_finds l (stackOf l) 16 0 (fun k => by simp) hnz hlen]
  simp only [Nat.zero_add]
  rw [stackOf_push]

/-- Calling `ret` on a nonempty prefix stack of nonzero values pops the most
recently pushed value into PC and clears its slot. -/
theorem ret_spec (s : Chip8) (l : List Nat) (p : Nat)
    (hs : s.stack = stackOf (l ++ [p])) (hnz : ∀ b ∈ l ++ [p], b ≠ 0)
    (hlen : l.length + 1 ≤ 16) :
    Cpu.ret s = some { s with pc := p, stack := stackOf l } := by
  have hmem : ∀ k, k < l.length + 1 → stackOf (l ++ [p]) k ≠ 0 := by
    intro k hk
    have hk' : k < (l ++ [p]).length := by simp; omega
    rw [stackOf, List.getD_eq_getElem _ _ hk']
    exact hnz _ (List.getElem_mem hk')
  have h0 : s.stack 0 ≠ 0 := by
    rw [hs]
    exact hmem 0 (by omega)
  rw [Cpu.ret, if_neg h0, hs]
  rcases Nat.lt_or_ge (l.length + 1) 16 with hlt | hge
  · rw [scanZero_finds (l ++ [p]) _ 16 0 (fun k => by simp) hnz (by simpa using hlt)]
    simp only [Nat.zero_add, List.length_append, List.length_singleton,
      Nat.add_sub_cancel]
    rw [stackOf_getD_len, stackOf_pop]
  · have h16 : l.length + 1 = 16 := by omega
    have hll : l.length = 15 := by omega
    rw [scanZero_full 16 0 _ (by
      intro k hk
      simp only [Nat.zero_add]
      exact hmem k (by omega))]
    simp only []
    rw [show (15 : Nat) = l.length from hll.symm, stackOf_getD_len, stackOf_pop]

/-- Executing a sequence of CALLs pushes exactly the pre-call PCs, in
order, onto the prefix stack. -/
theorem doCalls_spec : ∀ (addrs : List Nat) (s : Chip8) (l : List Nat),
    s.stack = stackOf l → (∀ b ∈ l, b ≠ 0) → s.pc ≠ 0 → (∀ a ∈ addrs, a ≠ 0) →
    l.length + addrs.length ≤ 16 →
    ∃ s1, doCalls addrs s = some s1 ∧
      s1.stack = stackOf (l ++ precalls s.pc addrs) ∧
      (l ++ precalls s.pc addrs).length = l.length + addrs.length ∧
      (∀ b ∈ l ++ precalls s.pc addrs, b ≠ 0) := by
  intro addrs
  induction addrs with
  | nil =>
      intro s l hs hnz hpc _ hlen
      exact ⟨s, rfl, by simpa [precalls] using hs, by simp [precalls], by
        simpa [precalls] using hnz⟩
  | cons a rest ih =>
      intro s l hs hnz hpc hanz hlen
      have hcall := call_spec s l a hs hnz (by simp at hlen; omega)
      have hnz' : ∀ b ∈ l ++ [s.pc], b ≠ 0 := by
        intro b hb
        rcases List.mem_append.1 hb with hb | hb
        · exact hnz b hb
        · simp at hb; subst hb; exact hpc
      have hanz' : a ≠ 0 := hanz a (List.mem_cons_self a rest)
      obtain ⟨s1, hdo, hstk, hlen', hmem⟩ :=
        ih { s with stack := stackOf (l ++ [s.pc]), pc := a } (l ++ [s.pc])
          rfl hnz' hanz' (fun b hb => hanz b (List.mem_cons_of_mem a hb))
          (by simp at hlen ⊢; omega)
      refine ⟨s1, ?_, ?_, ?_, ?_⟩
      · rw [doCalls, hcall, Option.some_bind]
        exact hdo
      · rw [hstk]
        simp [precalls, List.append_assoc]
      · rw [show l ++ precalls s.pc (a :: rest) = (l ++ [s.pc]) ++ precalls a rest by
          simp [precalls, List.append_assoc]]
        simp at hlen' ⊢
        omega
      · rw [show l ++ precalls s.pc (a :: rest) = (l ++ [s.pc]) ++ precalls a rest by
          simp [precalls, List.append_assoc]]
        exact hmem

/-- From a prefix stack of nonzero pushed values, successive RETURNs pop
them in reverse order and end with an empty stack. -/
theorem unwinds_of_stack : ∀ (l : List Nat) (s : Chip8),
    (∀ b ∈ l, b ≠ 0) → l.length ≤ 16 → s.stack = stackOf l →
    unwinds s l.reverse := by
  intro l
  induction l using List.reverseRecOn with
  | nil =>
      intro s _ _ hs
      intro j
      rw [hs]
      simp [stackOf]
  | append_singleton l' p ih =>
      intro s hnz hlen hs
      have hret := ret_spec s l' p hs hnz (by simpa using hlen)
      rw [List.reverse_append, List.reverse_singleton, List.singleton_append]
      exact ⟨{ s with pc := p, stack := stackOf l' }, hret, rfl,
        ih _ (fun b hb => hnz b (List.mem_append_left _ hb))
          (by simp at hlen; omega) rfl⟩

/-- C4 counterexample: from PC = 0x300 with an empty stack, the nested
calls CALL 0x000 then CALL 0x005 push the PCs 0x300 and 0x000, but 0 is
the empty-slot sentinel, so the first RETURN restores 0x300 instead of
the last call's pre-call value 0x000, and the second RETURN — which the
claim says must succeed and restore 0x300 — is the empty-stack fatal
fault. -/
theorem call_zero_target_breaks_round_trip :
    Option.map Chip8.pc ((doCalls [0x000, 0x005] sPC3).bind Cpu.ret) = some 0x300 ∧
    Option.map Chip8.pc ((doCalls [0x000, 0x005] sPC3).bind Cpu.ret) ≠ some 0x000 ∧
    ((doCalls [0x000, 0x005] sPC3).bind Cpu.ret).bind Cpu.ret = none := by
  refine ⟨by decide, by decide, rfl⟩

/-- C4 (amended): from an empty call stack, provided the initial PC and
every call target are nonzero (zero being the empty-slot sentinel), any
sequence of at most 16 nested CALLs succeeds, and the subsequent RETURNs
restore the pre-call PCs in reverse order (last call returned first),
leaving the stack empty; if 16 calls were made, a 17th CALL is the fatal
overflow fault; and RETURN on the empty stack is a fatal fault. -/
theorem call_ret_round_trip (s0 : Chip8) (addrs : List Nat)
    (hempty : ∀ j, s0.stack j = 0) (hpc : s0.pc ≠ 0)
    (hnz : ∀ a ∈ addrs, a ≠ 0) (hlen : addrs.length ≤ 16) :
    (∃ s1, doCalls addrs s0 = some s1 ∧
      unwinds s1 (precalls s0.pc addrs).reverse ∧
      (addrs.length = 16 → ∀ a, Cpu.call s1 a = none)) ∧
    Cpu.ret s0 = none := by
  have hstack : s0.stack = stackOf [] := by
    funext j
    rw [hempty]
    simp [stackOf]
  obtain ⟨s1, hdo, hstk, hlen', hmem⟩ :=
    doCalls_spec addrs s0 [] hstack (by simp) hpc hnz (by simpa using hlen)
  simp only [List.nil_append, List.length_nil, Nat.zero_add] at hstk hlen' hmem
  refine ⟨⟨s1, hdo, ?_, ?_⟩, ?_⟩
  · exact unwinds_of_stack _ s1 hmem (by omega) hstk
  · intro h16 a
    rw [Cpu.call, hstk, scanZero_full 16 0 _ (by
      intro k hk
      simp only [Nat.zero_add]
      have hk' : k < (precalls s0.pc addrs).length := by omega
      rw [stackOf, List.getD_eq_getElem _ _ hk']
      exact hmem _ (List.getElem_mem hk'))]
  · rw [Cpu.ret, if_pos (hempty 0)]

/-- C4 witness: the amended round-trip theorem applied to a fresh CPU
(PC = 0x200, empty stack) and the nested call targets 0x300, 0x400. -/
theorem call_ret_round_trip_witness :
    (∀ j, Cpu.new.stack j = 0) ∧
    ((∃ s1, doCalls [0x300, 0x400] Cpu.new = some s1 ∧
      unwinds s1 (precalls Cpu.new.pc [0x300, 0x400]).reverse ∧
      (([0x300, 0x400] : List Nat).length = 16 → ∀ a, Cpu.call s1 a = none)) ∧
    Cpu.ret Cpu.new = none) :=
  ⟨fun j => rfl,
    call_ret_round_trip Cpu.new [0x300, 0x400] (fun j => rfl) (by decide)
      (by decide) (by decide)⟩

